import Mathlib

/-!
Verification of the FHIR SDK request-execution engine (`fhir-sdk`).

The development shallowly embeds the client's request pipeline
(`Client::run_request` in `crates/fhir-sdk/src/client/mod.rs`), the atomic
settings patch (`Client::patch_request_settings`), and the bundle
construction helpers (`crates/fhir-sdk/src/extensions/bundle.rs`).

The sequential pipeline is modelled as a pure function instrumented with a
trace of the network sends and of the invocations of the authentication
callback.  The concurrency protocols (single-flight credential refresh and
the settings lock) are modelled as small-step interleaving transition
systems over explicit thread states.
-/

namespace FhirSdk

/-- Origin of a URL: scheme, host and port (`url::Origin`). -/
structure Origin where
  scheme : String
  host : String
  port : Nat
deriving DecidableEq, Repr

/-- A URL, split into its origin and the remaining path-and-query text. -/
structure Url where
  orig : Origin
  rest : String
deriving DecidableEq, Repr

/-- Rendering of a URL to a string (`Url::to_string`), used in the
`DifferentOrigin` error payload. -/
def Url.render (u : Url) : String :=
  u.orig.scheme ++ "://" ++ u.orig.host ++ ":" ++ toString u.orig.port ++ u.rest

/-- HTTP headers as an association list of name/value pairs. -/
abbrev Headers := List (String × String)

/-- Append a header (`reqwest::RequestBuilder::header` appends). -/
def addHeader (name value : String) (hs : Headers) : Headers :=
  hs ++ [(name, value)]

/-- Set a header, replacing any existing value for the same name. -/
def setHeader (name value : String) (hs : Headers) : Headers :=
  (name, value) :: hs.filter (fun p => p.1 ≠ name)

/-- An HTTP request description: target URL, headers, and whether the
request body can be duplicated (`reqwest::RequestBuilder::try_clone`
succeeds exactly when `clonable` is `true`). -/
structure HRequest where
  url : Url
  headers : Headers
  clonable : Bool
deriving DecidableEq, Repr

/-- An HTTP response: status code and headers. -/
structure HResponse where
  status : Nat
  headers : Headers
deriving DecidableEq, Repr

/-- Modelled from the spec: `RequestSettings` lives in
`crates/fhir-sdk/src/client/request.rs`, which is absent from the sources;
the spec describes it as a retry policy plus default headers that may
include a cached Authorization value.  Only the headers are relevant to the
claims; the retry policy is absorbed into the transport oracle. -/
structure RequestSettings where
  headers : Headers
deriving DecidableEq, Repr

/-- Modelled from the spec: `RequestSettings::header` sets a default header
(the Authorization value cached after a refresh), replacing any previous
value for that header name. -/
def RequestSettings.header (s : RequestSettings) (name value : String) :
    RequestSettings :=
  ⟨setHeader name value s.headers⟩

/-- Modelled from the spec: the `Error` enum lives in
`crates/fhir-sdk/src/client/error.rs`, which is absent from the sources.
The variants used by `run_request` are listed in the spec's error taxonomy:
request-not-duplicable, origin-mismatch, authentication-callback failure,
version-mismatch (carrying the observed value) and transport failure. -/
inductive Error where
  | RequestNotClone
  | DifferentOrigin (url : String)
  | AuthCallback (msg : String)
  | DifferentFhirVersion (version : String)
  | Transport
deriving DecidableEq, Repr

/-- Result of one invocation of the authentication callback
(`AuthCallback::authenticate`): either a new Authorization header value or
a failure message. -/
inductive AuthResult where
  | ok (value : String)
  | err (msg : String)
deriving DecidableEq, Repr

/-- The client configuration relevant to `run_request` (`ClientData`):
base URL, stored request settings, the optional auth callback (modelled by
the outcome its single potential invocation would produce), the two guard
flags, and the FHIR version string `V::VERSION`. -/
structure ClientData where
  baseUrl : Url
  requestSettings : RequestSettings
  authCallback : Option AuthResult
  errorOnVersionMismatch : Bool
  errorOnOriginMismatch : Bool
  version : String
deriving DecidableEq, Repr

/-- The major component of a version string: the text before the first
dot, or the whole string if it has no dot
(`V::VERSION.split_once('.')` in `run_request`). -/
def majorComponent (s : String) : String :=
  ⟨s.data.takeWhile (fun c => c ≠ '.')⟩

/-- Modelled from the spec: `parse_major_fhir_version` lives in
`crates/fhir-sdk/src/client/misc.rs`, which is absent from the sources; the
spec describes it as inspecting a version-indicating response header and
producing its major component when the header is present. -/
def parse_major_fhir_version (hs : Headers) : Option String :=
  (List.lookup "fhirVersion" hs).map majorComponent

/-- Outcome of `run_request`: a response or an error. -/
inductive RunOutcome where
  | ok (resp : HResponse)
  | err (e : Error)
deriving DecidableEq, Repr

/-- The version guard at the end of `run_request`: if configured, compare
the major FHIR version announced by the response against the client's
major version and fail with `DifferentFhirVersion` on mismatch; an absent
header is not an error. -/
def versionCheck (c : ClientData) (resp : HResponse) : RunOutcome :=
  if c.errorOnVersionMismatch = true then
    match parse_major_fhir_version resp.headers with
    | some v =>
        if v ≠ majorComponent c.version then .err (.DifferentFhirVersion v)
        else .ok resp
    | none => .ok resp
  else .ok resp

/-- The correlation-tagging step of `run_request`: if the request carries
no `X-Correlation-Id` header, attach a freshly generated identifier
(`Uuid::new_v4`, supplied as `freshId`); otherwise leave the request
unchanged. -/
def tagCorrelation (req : HRequest) (freshId : String) : HRequest :=
  match List.lookup "X-Correlation-Id" req.headers with
  | some _ => req
  | none => { req with headers := addHeader "X-Correlation-Id" freshId req.headers }

/-- Instrumented result of `run_request`: the outcome, the stored request
settings after the call, the trace of network sends (request paired with
the settings snapshot used), and how many times the auth callback was
invoked. -/
structure RunResult where
  result : RunOutcome
  settings : RequestSettings
  sends : List (HRequest × RequestSettings)
  authInvocations : Nat
deriving DecidableEq, Repr

/-- Shallow embedding of `Client::run_request`
(`crates/fhir-sdk/src/client/mod.rs`, lines 140-218) for an uncontended
execution (the credential-lock `try_lock` succeeds; contention is modelled
separately by the single-flight transition system).  The transport is an
oracle mapping the attempt index to `some` response or `none` for a
transport failure surfaced after the settings' retry policy; `freshId` is
the UUID the call would generate for correlation tagging. -/
def run_request (c : ClientData) (req : HRequest) (freshId : String)
    (responses : Nat → Option HResponse) : RunResult :=
  -- let info_request = request.try_clone().ok_or(Error::RequestNotClone)?
  if req.clonable = false then
    ⟨.err .RequestNotClone, c.requestSettings, [], 0⟩
  -- origin guard
  else if c.errorOnOriginMismatch = true ∧ req.url.orig ≠ c.baseUrl.orig then
    ⟨.err (.DifferentOrigin req.url.render), c.requestSettings, [], 0⟩
  else
    let req1 := tagCorrelation req freshId
    let s0 := c.requestSettings
    match responses 0 with
    | none => ⟨.err .Transport, s0, [(req1, s0)], 0⟩
    | some resp =>
      if resp.status = 401 then
        match c.authCallback with
        | some cb =>
          match cb with
          | .err e => ⟨.err (.AuthCallback e), s0, [(req1, s0)], 1⟩
          | .ok v =>
            let s1 := s0.header "authorization" v
            match responses 1 with
            | none => ⟨.err .Transport, s1, [(req1, s0), (req1, s1)], 1⟩
            | some resp2 => ⟨versionCheck c resp2, s1, [(req1, s0), (req1, s1)], 1⟩
        | none => ⟨.ok resp, s0, [(req1, s0)], 0⟩
      else ⟨versionCheck c resp, s0, [(req1, s0)], 0⟩

/-- Bundle type codes used by the grouped-operation constructors
(`fhir_model::codes::BundleType`). -/
inductive BundleType where
  | batch
  | transaction
deriving DecidableEq, Repr

/-- Modelled from the spec: the generated `Bundle` resource type lives in
the `fhir-model` crate, whose `resources` module is absent from the
sources; the spec describes the wire payload for grouped operations as a
container with a `type` field of `batch` or `transaction` and an ordered
`entry` list.  The entry type is kept abstract. -/
structure Bundle (α : Type) where
  type : BundleType
  entry : List (Option α)
deriving DecidableEq, Repr

/-- Modelled from the spec: the generated `Bundle::builder`, with the
`type` and `entry` setters used by `make_batch` and `make_transaction`. -/
structure BundleBuilder (α : Type) where
  type : Option BundleType := none
  entry : List (Option α) := []
deriving DecidableEq, Repr

/-- Modelled from the spec: `Bundle::builder()` starts with no fields set. -/
def Bundle.builder (α : Type) : BundleBuilder α := {}

/-- Modelled from the spec: the builder's `r#type` setter. -/
def BundleBuilder.withType (b : BundleBuilder α) (t : BundleType) :
    BundleBuilder α :=
  { b with type := some t }

/-- Modelled from the spec: the builder's `entry` setter. -/
def BundleBuilder.withEntry (b : BundleBuilder α) (es : List (Option α)) :
    BundleBuilder α :=
  { b with entry := es }

/-- Modelled from the spec: the builder's `build`, which fails when the
required `type` field was never set (the code unwraps the result). -/
def BundleBuilder.build (b : BundleBuilder α) : Option (Bundle α) :=
  b.type.map fun t => ⟨t, b.entry⟩

/-- Embedding of `BundleExt::make_batch`
(`crates/fhir-sdk/src/extensions/bundle.rs`, lines 66-69):
`Self::builder().r#type(BundleType::Batch).entry(entries).build()`. -/
def make_batch (α : Type) (entries : List (Option α)) : Option (Bundle α) :=
  (((Bundle.builder α).withType .batch).withEntry entries).build

/-- Embedding of `BundleExt::make_transaction`
(`crates/fhir-sdk/src/extensions/bundle.rs`, lines 71-74). -/
def make_transaction (α : Type) (entries : List (Option α)) :
    Option (Bundle α) :=
  (((Bundle.builder α).withType .transaction).withEntry entries).build

namespace SingleFlight

/-!
Interleaving model of the auth-retry protocol of `Client::run_request`
(lines 179-203) for N concurrent callers that have all just received an
unauthorized (401) response while an auth callback is configured.

Each thread runs the 401 branch:
- `got401`: about to `try_lock` the credential mutex.  If the lock is
  free the thread acquires it and proceeds to refresh; if it is held the
  thread moves to `waiting` (the blocking `lock().await`).
- `refreshing`: the thread holds the lock, invokes
  `auth_callback.authenticate` and patches the stored `RequestSettings`
  with the returned credential (patch precedes the release in program
  order, so merging them into one step loses no relevant interleaving).
- `releasing`: the thread drops the mutex guard at the end of the
  `if let` block.
- `waiting`: blocked in `lock().await`; when the lock is free the thread
  acquires and immediately drops the guard.
- `resend`: the thread re-reads the stored settings and resends the
  request once, recording the credential it used.
- `done`: finished.

The shared state also counts the auth-callback invocations and the
successful `try_lock` acquisitions.  Credentials are numbered: `0` is the
stale credential, and the i-th refresh installs credential `i`.
-/

/-- Program counter of one caller inside the 401 branch. -/
inductive CPc where
  | got401
  | refreshing
  | releasing
  | waiting
  | resend
  | done
deriving DecidableEq, Repr

/-- One caller: its program counter and the credential its resend used. -/
structure CThread where
  pc : CPc
  usedCred : Option Nat
deriving DecidableEq, Repr

/-- Shared state of the single-flight protocol: the credential mutex
(`some i` when held by thread `i`), the credential currently stored in
`RequestSettings`, the next fresh credential, the number of auth-callback
invocations, the number of successful `try_lock` acquisitions, and the
thread states. -/
structure CState where
  lock : Option Nat
  cred : Nat
  nextCred : Nat
  authCount : Nat
  acquisitions : Nat
  threads : List CThread
deriving DecidableEq, Repr

/-- One step of thread `i`; the state is unchanged when the thread cannot
move (absent, finished, or blocked waiting while the lock is held). -/
def cstep (g : CState) (i : Nat) : CState :=
  match g.threads[i]? with
  | none => g
  | some t =>
    match t.pc with
    | .got401 =>
      match g.lock with
      | some _ => { g with threads := g.threads.set i { t with pc := .waiting } }
      | none =>
        { g with lock := some i, acquisitions := g.acquisitions + 1,
                 threads := g.threads.set i { t with pc := .refreshing } }
    | .refreshing =>
      { g with authCount := g.authCount + 1, cred := g.nextCred,
               nextCred := g.nextCred + 1,
               threads := g.threads.set i { t with pc := .releasing } }
    | .releasing =>
      { g with lock := none, threads := g.threads.set i { t with pc := .resend } }
    | .waiting =>
      match g.lock with
      | some _ => g
      | none => { g with threads := g.threads.set i { t with pc := .resend } }
    | .resend =>
      { g with threads :=
          g.threads.set i { t with pc := .done, usedCred := some g.cred } }
    | .done => g

/-- Run a schedule (a list of thread indices) from a state. -/
def crun (g : CState) (sched : List Nat) : CState :=
  sched.foldl cstep g

/-- Initial state: `n` callers that all just received a 401, lock free,
stale credential `0` stored, no refresh yet. -/
def cinit (n : Nat) : CState :=
  ⟨none, 0, 1, 0, 0, List.replicate n ⟨.got401, none⟩⟩

/-- Inductive invariant of the single-flight protocol. -/
structure CInv (g : CState) : Prop where
  lock_lt : ∀ i : Nat, g.lock = some i → i < g.threads.length
  lock_crit : ∀ (i : Nat) (t : CThread), g.lock = some i →
      g.threads[i]? = some t → t.pc = .refreshing ∨ t.pc = .releasing
  crit_lock : ∀ (i : Nat) (t : CThread), g.threads[i]? = some t →
      (t.pc = .refreshing ∨ t.pc = .releasing) → g.lock = some i
  acq_held : ∀ (i : Nat) (t : CThread), g.lock = some i →
      g.threads[i]? = some t →
      g.acquisitions = g.authCount + (if t.pc = .refreshing then 1 else 0)
  acq_free : g.lock = none → g.acquisitions = g.authCount
  next_eq : g.nextCred = g.authCount + 1
  cred_le : g.cred ≤ g.authCount
  cred_pos : 1 ≤ g.authCount → 1 ≤ g.cred
  wait_auth : ∀ (i : Nat) (t : CThread), g.threads[i]? = some t →
      t.pc = .waiting →
      1 ≤ g.authCount ∨
        ∃ (j : Nat) (u : CThread),
          g.lock = some j ∧ g.threads[j]? = some u ∧ u.pc = .refreshing
  rel_auth : ∀ (i : Nat) (t : CThread), g.threads[i]? = some t →
      t.pc = .releasing → 1 ≤ g.authCount
  resend_auth : ∀ (i : Nat) (t : CThread), g.threads[i]? = some t →
      (t.pc = .resend ∨ t.pc = .done) → 1 ≤ g.authCount
  used_bounds : ∀ (i : Nat) (t : CThread) (k : Nat),
      g.threads[i]? = some t → t.usedCred = some k →
      1 ≤ k ∧ k ≤ g.authCount
  done_used : ∀ (i : Nat) (t : CThread), g.threads[i]? = some t →
      t.pc = .done → t.usedCred ≠ none

end SingleFlight

namespace SettingsPatch

/-!
Interleaving model of `Client::patch_request_settings`
(`crates/fhir-sdk/src/client/mod.rs`, lines 102-111) against concurrent
writers of the settings mutex (`Client::set_request_settings` and other
patch calls).  The patcher acquires the `request_settings` mutex, reads
the current settings, computes `mutator(settings.clone())` and writes the
result back, all before releasing the lock; every other writer must also
acquire the same mutex before writing.  Settings values are modelled as
naturals, the mutator as a function `f`.
-/

/-- Program counter of the patching thread. -/
inductive PPc where
  | pstart
  | plocked
  | pread
  | pwrote
  | pdone
deriving DecidableEq, Repr

/-- Program counter of a plain writer thread. -/
inductive WPc where
  | wstart
  | wlocked
  | wwrote
  | wdone
deriving DecidableEq, Repr

/-- A thread: the patcher (carrying the value it read under the lock) or
a writer (carrying the value it will store). -/
inductive SThread where
  | patcher (pc : PPc) (readVal : Option Nat)
  | writer (pc : WPc) (val : Nat)
deriving DecidableEq, Repr

/-- Shared state: the settings mutex, the stored settings value, and the
thread states. -/
structure SState where
  lock : Option Nat
  store : Nat
  threads : List SThread
deriving DecidableEq, Repr

/-- Whether a thread currently holds the settings mutex. -/
def inCrit : SThread → Bool
  | .patcher .plocked _ => true
  | .patcher .pread _ => true
  | .patcher .pwrote _ => true
  | .writer .wlocked _ => true
  | .writer .wwrote _ => true
  | _ => false

/-- One step of thread `i` under mutator `f`; the state is unchanged when
the thread cannot move. -/
def sstep (f : Nat → Nat) (g : SState) (i : Nat) : SState :=
  match g.threads[i]? with
  | none => g
  | some th =>
    match th with
    | .patcher pc rv =>
      match pc with
      | .pstart =>
        match g.lock with
        | some _ => g
        | none =>
          { g with lock := some i,
                   threads := g.threads.set i (.patcher .plocked rv) }
      | .plocked =>
          { g with threads := g.threads.set i (.patcher .pread (some g.store)) }
      | .pread =>
        match rv with
        | some v =>
            { g with store := f v,
                     threads := g.threads.set i (.patcher .pwrote rv) }
        | none => g
      | .pwrote =>
          { g with lock := none,
                   threads := g.threads.set i (.patcher .pdone rv) }
      | .pdone => g
    | .writer pc v =>
      match pc with
      | .wstart =>
        match g.lock with
        | some _ => g
        | none =>
          { g with lock := some i,
                   threads := g.threads.set i (.writer .wlocked v) }
      | .wlocked =>
          { g with store := v, threads := g.threads.set i (.writer .wwrote v) }
      | .wwrote =>
          { g with lock := none,
                   threads := g.threads.set i (.writer .wdone v) }
      | .wdone => g

/-- Run a schedule from a state. -/
def srun (f : Nat → Nat) (g : SState) (sched : List Nat) : SState :=
  sched.foldl (sstep f) g

/-- Initial state: stored value `s0`, one patcher and one writer per
element of `vals`, lock free. -/
def sinit (s0 : Nat) (vals : List Nat) : SState :=
  ⟨none, s0, .patcher .pstart none :: vals.map (fun v => .writer .wstart v)⟩

/-- Inductive invariant of the settings-mutex protocol. -/
structure SInv (f : Nat → Nat) (g : SState) : Prop where
  lock_lt : ∀ i : Nat, g.lock = some i → i < g.threads.length
  lock_crit : ∀ (i : Nat) (th : SThread), g.lock = some i →
      g.threads[i]? = some th → inCrit th = true
  crit_lock : ∀ (i : Nat) (th : SThread), g.threads[i]? = some th →
      inCrit th = true → g.lock = some i
  read_eq : ∀ (i : Nat) (rv : Option Nat),
      g.threads[i]? = some (.patcher .pread rv) →
      ∃ v, rv = some v ∧ g.store = v
  wrote_eq : ∀ (i : Nat) (rv : Option Nat),
      g.threads[i]? = some (.patcher .pwrote rv) →
      ∃ v, rv = some v ∧ g.store = f v

end SettingsPatch

/-- Case analysis for a lookup in a list after `set`. -/
theorem lookup_set_cases {α : Type} {l : List α} {i j : Nat} {a u : α}
    (h : (l.set i a)[j]? = some u) :
    (j = i ∧ u = a) ∨ (j ≠ i ∧ l[j]? = some u) := by
  by_cases hji : j = i
  · subst hji
    have hlt : j < (l.set j a).length := (List.getElem?_eq_some.mp h).1
    rw [List.length_set] at hlt
    rw [List.getElem?_set_eq_of_lt a hlt] at h
    exact Or.inl ⟨rfl, (Option.some.inj h).symm⟩
  · exact Or.inr ⟨hji, by rwa [List.getElem?_set_ne (Ne.symm hji)] at h⟩

/-- Lookup at an unchanged position after `set`. -/
theorem lookup_set_ne {α : Type} {l : List α} {i j : Nat} (a : α)
    (h : j ≠ i) : (l.set i a)[j]? = l[j]? :=
  List.getElem?_set_ne (Ne.symm h)

/-- Lookup at the written position after `set`. -/
theorem lookup_set_self {α : Type} {l : List α} {i : Nat} (a : α)
    (h : i < l.length) : (l.set i a)[i]? = some a :=
  List.getElem?_set_eq_of_lt a h

namespace SingleFlight

/-- Preservation: a caller whose `try_lock` fails moves to `waiting`. -/
theorem pres_toWaiting {g : CState} (h : CInv g) {i l : Nat} {t : CThread}
    (ht : g.threads[i]? = some t) (hpc : t.pc = .got401)
    (hlock : g.lock = some l) :
    CInv { g with threads := g.threads.set i { t with pc := .waiting } } := by
  have hli : l ≠ i := by
    intro he; subst he
    rcases h.lock_crit l t hlock ht with hc | hc <;> rw [hpc] at hc <;>
      exact CPc.noConfusion hc
  refine
    { lock_lt := ?_, lock_crit := ?_, crit_lock := ?_, acq_held := ?_,
      acq_free := ?_, next_eq := h.next_eq, cred_le := h.cred_le,
      cred_pos := h.cred_pos, wait_auth := ?_, rel_auth := ?_,
      resend_auth := ?_, used_bounds := ?_, done_used := ?_ }
  · intro j hj
    simpa [List.length_set] using h.lock_lt j hj
  · intro j u hj hu
    have hjl : j = l := by rw [hlock] at hj; exact (Option.some.inj hj).symm
    subst hjl
    rw [lookup_set_ne _ hli] at hu
    exact h.lock_crit j u hj hu
  · intro j u hu hcrit
    rcases lookup_set_cases hu with ⟨rfl, rfl⟩ | ⟨hne, hu'⟩
    · simp at hcrit
    · exact h.crit_lock j u hu' hcrit
  · intro j u hj hu
    have hjl : j = l := by rw [hlock] at hj; exact (Option.some.inj hj).symm
    subst hjl
    rw [lookup_set_ne _ hli] at hu
    exact h.acq_held j u hj hu
  · intro hn; rw [hlock] at hn; exact Option.noConfusion hn
  · intro j u hu hw
    rcases lookup_set_cases hu with ⟨rfl, rfl⟩ | ⟨hne, hu'⟩
    · have hl : l < g.threads.length := h.lock_lt l hlock
      rcases hv : g.threads[l]? with _ | v
      · rw [List.getElem?_eq_getElem hl] at hv; exact Option.noConfusion hv
      · rcases h.lock_crit l v hlock hv with hc | hc
        · exact Or.inr ⟨l, v, hlock, by rwa [lookup_set_ne _ hli], hc⟩
        · exact Or.inl (h.rel_auth l v hv hc)
    · rcases h.wait_auth j u hu' hw with hl | ⟨j', u', hj', hu'', hr⟩
      · exact Or.inl hl
      · have hj'i : j' ≠ i := by
          intro he; subst he
          rw [hlock] at hj'; exact hli (Option.some.inj hj')
        exact Or.inr ⟨j', u', hj', by rwa [lookup_set_ne _ hj'i], hr⟩
  · intro j u hu hr
    rcases lookup_set_cases hu with ⟨rfl, rfl⟩ | ⟨hne, hu'⟩
    · simp at hr
    · exact h.rel_auth j u hu' hr
  · intro j u hu hr
    rcases lookup_set_cases hu with ⟨rfl, rfl⟩ | ⟨hne, hu'⟩
    · simp at hr
    · exact h.resend_auth j u hu' hr
  · intro j u k hu hk
    rcases lookup_set_cases hu with ⟨rfl, rfl⟩ | ⟨hne, hu'⟩
    · exact h.used_bounds _ t k ht hk
    · exact h.used_bounds j u k hu' hk
  · intro j u hu hd
    rcases lookup_set_cases hu with ⟨rfl, rfl⟩ | ⟨hne, hu'⟩
    · simp at hd
    · exact h.done_used j u hu' hd

/-- Preservation: a caller whose `try_lock` succeeds acquires the lock and
starts refreshing. -/
theorem pres_acquire {g : CState} (h : CInv g) {i : Nat} {t : CThread}
    (ht : g.threads[i]? = some t) (hpc : t.pc = .got401)
    (hlock : g.lock = none) :
    CInv { g with lock := some i, acquisitions := g.acquisitions + 1,
                  threads := g.threads.set i { t with pc := .refreshing } } := by
  have hlt : i < g.threads.length := (List.getElem?_eq_some.mp ht).1
  refine
    { lock_lt := ?_, lock_crit := ?_, crit_lock := ?_, acq_held := ?_,
      acq_free := ?_, next_eq := h.next_eq, cred_le := h.cred_le,
      cred_pos := h.cred_pos, wait_auth := ?_, rel_auth := ?_,
      resend_auth := ?_, used_bounds := ?_, done_used := ?_ }
  · intro j hj
    have hji : j = i := (Option.some.inj hj).symm
    subst hji
    simpa [List.length_set] using hlt
  · intro j u hj hu
    have hji : j = i := (Option.some.inj hj).symm
    subst hji
    rw [lookup_set_self _ hlt] at hu
    cases Option.some.inj hu
    exact Or.inl rfl
  · intro j u hu hcrit
    rcases lookup_set_cases hu with ⟨rfl, rfl⟩ | ⟨hne, hu'⟩
    · rfl
    · exact absurd (h.crit_lock j u hu' hcrit) (by rw [hlock]; intro hc; exact Option.noConfusion hc)
  · intro j u hj hu
    have hji : j = i := (Option.some.inj hj).symm
    subst hji
    rw [lookup_set_self _ hlt] at hu
    cases Option.some.inj hu
    simp [h.acq_free hlock]
  · intro hn; exact Option.noConfusion hn
  · intro j u hu hw
    exact Or.inr ⟨i, { t with pc := .refreshing }, rfl, lookup_set_self _ hlt, rfl⟩
  · intro j u hu hr
    rcases lookup_set_cases hu with ⟨rfl, rfl⟩ | ⟨hne, hu'⟩
    · simp at hr
    · exact h.rel_auth j u hu' hr
  · intro j u hu hr
    rcases lookup_set_cases hu with ⟨rfl, rfl⟩ | ⟨hne, hu'⟩
    · simp at hr
    · exact h.resend_auth j u hu' hr
  · intro j u k hu hk
    rcases lookup_set_cases hu with ⟨rfl, rfl⟩ | ⟨hne, hu'⟩
    · exact h.used_bounds _ t k ht hk
    · exact h.used_bounds j u k hu' hk
  · intro j u hu hd
    rcases lookup_set_cases hu with ⟨rfl, rfl⟩ | ⟨hne, hu'⟩
    · simp at hd
    · exact h.done_used j u hu' hd

/-- Preservation: the lock holder invokes the auth callback and patches
the stored settings with the fresh credential. -/
theorem pres_refresh {g : CState} (h : CInv g) {i : Nat} {t : CThread}
    (ht : g.threads[i]? = some t) (hpc : t.pc = .refreshing) :
    CInv { g with authCount := g.authCount + 1, cred := g.nextCred,
                  nextCred := g.nextCred + 1,
                  threads := g.threads.set i { t with pc := .releasing } } := by
  have hlt : i < g.threads.length := (List.getElem?_eq_some.mp ht).1
  have hlock : g.lock = some i := h.crit_lock i t ht (Or.inl hpc)
  refine
    { lock_lt := ?_, lock_crit := ?_, crit_lock := ?_, acq_held := ?_,
      acq_free := ?_, next_eq := ?_, cred_le := ?_, cred_pos := ?_,
      wait_auth := ?_, rel_auth := ?_, resend_auth := ?_,
      used_bounds := ?_, done_used := ?_ }
  · intro j hj
    simpa [List.length_set] using h.lock_lt j hj
  · intro j u hj hu
    have hji : j = i := by
      rw [hlock] at hj; exact (Option.some.inj hj).symm
    subst hji
    rw [lookup_set_self _ hlt] at hu
    cases Option.some.inj hu
    exact Or.inr rfl
  · intro j u hu hcrit
    rcases lookup_set_cases hu with ⟨rfl, rfl⟩ | ⟨hne, hu'⟩
    · exact hlock
    · have := h.crit_lock j u hu' hcrit
      rw [hlock] at this
      exact absurd (Option.some.inj this).symm hne
  · intro j u hj hu
    have hji : j = i := by
      rw [hlock] at hj; exact (Option.some.inj hj).symm
    subst hji
    rw [lookup_set_self _ hlt] at hu
    cases Option.some.inj hu
    have := h.acq_held j t hlock ht
    rw [hpc] at this
    simp at this ⊢
    omega
  · intro hn; rw [hlock] at hn; exact Option.noConfusion hn
  · simp [h.next_eq]
  · simp [h.next_eq]
  · intro _; simp [h.next_eq]
  · intro j u hu hw
    exact Or.inl (by dsimp only; omega)
  · intro j u hu hr
    dsimp only; omega
  · intro j u hu hr
    dsimp only; omega
  · intro j u k hu hk
    rcases lookup_set_cases hu with ⟨rfl, rfl⟩ | ⟨hne, hu'⟩
    · have := h.used_bounds _ t k ht hk
      exact ⟨this.1, by dsimp only; omega⟩
    · have := h.used_bounds j u k hu' hk
      exact ⟨this.1, by dsimp only; omega⟩
  · intro j u hu hd
    rcases lookup_set_cases hu with ⟨rfl, rfl⟩ | ⟨hne, hu'⟩
    · simp at hd
    · exact h.done_used j u hu' hd

/-- Preservation: the lock holder drops the mutex guard at the end of the
refresh block and proceeds to the resend. -/
theorem pres_release {g : CState} (h : CInv g) {i : Nat} {t : CThread}
    (ht : g.threads[i]? = some t) (hpc : t.pc = .releasing) :
    CInv { g with lock := none,
                  threads := g.threads.set i { t with pc := .resend } } := by
  have hlt : i < g.threads.length := (List.getElem?_eq_some.mp ht).1
  have hlock : g.lock = some i := h.crit_lock i t ht (Or.inr hpc)
  refine
    { lock_lt := ?_, lock_crit := ?_, crit_lock := ?_, acq_held := ?_,
      acq_free := ?_, next_eq := h.next_eq, cred_le := h.cred_le,
      cred_pos := h.cred_pos, wait_auth := ?_, rel_auth := ?_,
      resend_auth := ?_, used_bounds := ?_, done_used := ?_ }
  · intro j hj; exact Option.noConfusion hj
  · intro j u hj; exact absurd hj (by intro hc; exact Option.noConfusion hc)
  · intro j u hu hcrit
    rcases lookup_set_cases hu with ⟨rfl, rfl⟩ | ⟨hne, hu'⟩
    · simp at hcrit
    · have := h.crit_lock j u hu' hcrit
      rw [hlock] at this
      exact absurd (Option.some.inj this).symm hne
  · intro j u hj; exact absurd hj (by intro hc; exact Option.noConfusion hc)
  · intro _
    have := h.acq_held i t hlock ht
    rw [hpc] at this
    simpa using this
  · intro j u hu hw
    rcases lookup_set_cases hu with ⟨rfl, rfl⟩ | ⟨hne, hu'⟩
    · simp at hw
    · rcases h.wait_auth j u hu' hw with hl | ⟨j', u', hj', hu'', hr⟩
      · exact Or.inl hl
      · rw [hlock] at hj'
        cases Option.some.inj hj'
        rw [ht] at hu''
        cases Option.some.inj hu''
        rw [hpc] at hr
        exact CPc.noConfusion hr
  · intro j u hu hr
    rcases lookup_set_cases hu with ⟨rfl, rfl⟩ | ⟨hne, hu'⟩
    · simp at hr
    · exact h.rel_auth j u hu' hr
  · intro j u hu hr
    rcases lookup_set_cases hu with ⟨rfl, rfl⟩ | ⟨hne, hu'⟩
    · exact h.rel_auth _ t ht hpc
    · exact h.resend_auth j u hu' hr
  · intro j u k hu hk
    rcases lookup_set_cases hu with ⟨rfl, rfl⟩ | ⟨hne, hu'⟩
    · exact h.used_bounds _ t k ht hk
    · exact h.used_bounds j u k hu' hk
  · intro j u hu hd
    rcases lookup_set_cases hu with ⟨rfl, rfl⟩ | ⟨hne, hu'⟩
    · simp at hd
    · exact h.done_used j u hu' hd

/-- Preservation: a waiting caller wakes once the lock is free (the
blocking acquire returns and the guard is dropped immediately). -/
theorem pres_wake {g : CState} (h : CInv g) {i : Nat} {t : CThread}
    (ht : g.threads[i]? = some t) (hpc : t.pc = .waiting)
    (hlock : g.lock = none) :
    CInv { g with threads := g.threads.set i { t with pc := .resend } } := by
  have hauth : 1 ≤ g.authCount := by
    rcases h.wait_auth i t ht hpc with hl | ⟨j', u', hj', _, _⟩
    · exact hl
    · rw [hlock] at hj'; exact Option.noConfusion hj'
  refine
    { lock_lt := ?_, lock_crit := ?_, crit_lock := ?_, acq_held := ?_,
      acq_free := fun _ => h.acq_free hlock, next_eq := h.next_eq,
      cred_le := h.cred_le, cred_pos := h.cred_pos, wait_auth := ?_,
      rel_auth := ?_, resend_auth := ?_, used_bounds := ?_,
      done_used := ?_ }
  · intro j hj; rw [hlock] at hj; exact Option.noConfusion hj
  · intro j u hj; rw [hlock] at hj
    exact absurd hj (by intro hc; exact Option.noConfusion hc)
  · intro j u hu hcrit
    rcases lookup_set_cases hu with ⟨rfl, rfl⟩ | ⟨hne, hu'⟩
    · simp at hcrit
    · have := h.crit_lock j u hu' hcrit
      rw [hlock] at this
      exact Option.noConfusion this
  · intro j u hj; rw [hlock] at hj
    exact absurd hj (by intro hc; exact Option.noConfusion hc)
  · intro j u hu hw
    rcases lookup_set_cases hu with ⟨rfl, rfl⟩ | ⟨hne, hu'⟩
    · simp at hw
    · exact Or.inl hauth
  · intro j u hu hr
    rcases lookup_set_cases hu with ⟨rfl, rfl⟩ | ⟨hne, hu'⟩
    · simp at hr
    · exact h.rel_auth j u hu' hr
  · intro j u hu hr
    rcases lookup_set_cases hu with ⟨rfl, rfl⟩ | ⟨hne, hu'⟩
    · exact hauth
    · exact h.resend_auth j u hu' hr
  · intro j u k hu hk
    rcases lookup_set_cases hu with ⟨rfl, rfl⟩ | ⟨hne, hu'⟩
    · exact h.used_bounds _ t k ht hk
    · exact h.used_bounds j u k hu' hk
  · intro j u hu hd
    rcases lookup_set_cases hu with ⟨rfl, rfl⟩ | ⟨hne, hu'⟩
    · simp at hd
    · exact h.done_used j u hu' hd

/-- Preservation: a caller re-reads the stored settings and resends with
the credential currently stored. -/
theorem pres_resend {g : CState} (h : CInv g) {i : Nat} {t : CThread}
    (ht : g.threads[i]? = some t) (hpc : t.pc = .resend) :
    CInv { g with threads :=
        g.threads.set i { t with pc := .done, usedCred := some g.cred } } := by
  have hauth : 1 ≤ g.authCount := h.resend_auth i t ht (Or.inl hpc)
  have hlockne : ∀ l : Nat, g.lock = some l → l ≠ i := by
    intro l hl he
    subst he
    rcases h.lock_crit l t hl ht with hc | hc <;> rw [hpc] at hc <;>
      exact CPc.noConfusion hc
  refine
    { lock_lt := ?_, lock_crit := ?_, crit_lock := ?_, acq_held := ?_,
      acq_free := h.acq_free, next_eq := h.next_eq, cred_le := h.cred_le,
      cred_pos := h.cred_pos, wait_auth := ?_, rel_auth := ?_,
      resend_auth := ?_, used_bounds := ?_, done_used := ?_ }
  · intro j hj
    simpa [List.length_set] using h.lock_lt j hj
  · intro j u hj hu
    rw [lookup_set_ne _ (hlockne j hj)] at hu
    exact h.lock_crit j u hj hu
  · intro j u hu hcrit
    rcases lookup_set_cases hu with ⟨rfl, rfl⟩ | ⟨hne, hu'⟩
    · simp at hcrit
    · exact h.crit_lock j u hu' hcrit
  · intro j u hj hu
    rw [lookup_set_ne _ (hlockne j hj)] at hu
    exact h.acq_held j u hj hu
  · intro j u hu hw
    rcases lookup_set_cases hu with ⟨rfl, rfl⟩ | ⟨hne, hu'⟩
    · simp at hw
    · rcases h.wait_auth j u hu' hw with hl | ⟨j', u', hj', hu'', hr⟩
      · exact Or.inl hl
      · exact Or.inr ⟨j', u', hj',
          by rwa [lookup_set_ne _ (hlockne j' hj')], hr⟩
  · intro j u hu hr
    rcases lookup_set_cases hu with ⟨rfl, rfl⟩ | ⟨hne, hu'⟩
    · simp at hr
    · exact h.rel_auth j u hu' hr
  · intro j u hu hr
    rcases lookup_set_cases hu with ⟨rfl, rfl⟩ | ⟨hne, hu'⟩
    · exact hauth
    · exact h.resend_auth j u hu' hr
  · intro j u k hu hk
    rcases lookup_set_cases hu with ⟨rfl, rfl⟩ | ⟨hne, hu'⟩
    · have hk' : g.cred = k := by simpa using hk
      subst hk'
      exact ⟨h.cred_pos hauth, h.cred_le⟩
    · exact h.used_bounds j u k hu' hk
  · intro j u hu hd
    rcases lookup_set_cases hu with ⟨rfl, rfl⟩ | ⟨hne, hu'⟩
    · simp
    · exact h.done_used j u hu' hd

/-- `cstep` preserves the invariant. -/
theorem cstep_pres {g : CState} (h : CInv g) (i : Nat) : CInv (cstep g i) := by
  rcases ht : g.threads[i]? with _ | t
  · simpa [cstep, ht] using h
  · rcases hpc : t.pc with _ | _ | _ | _ | _ | _
    · rcases hlock : g.lock with _ | l
      · have hred : cstep g i =
            { g with lock := some i, acquisitions := g.acquisitions + 1,
                     threads := g.threads.set i { t with pc := .refreshing } } := by
          simp [cstep, ht, hpc, hlock]
        rw [hred]
        exact pres_acquire h ht hpc hlock
      · have hred : cstep g i =
            { g with threads := g.threads.set i { t with pc := .waiting } } := by
          simp [cstep, ht, hpc, hlock]
        rw [hred]
        exact pres_toWaiting h ht hpc hlock
    · have hred : cstep g i =
          { g with authCount := g.authCount + 1, cred := g.nextCred,
                   nextCred := g.nextCred + 1,
                   threads := g.threads.set i { t with pc := .releasing } } := by
        simp [cstep, ht, hpc]
      rw [hred]
      exact pres_refresh h ht hpc
    · have hred : cstep g i =
          { g with lock := none,
                   threads := g.threads.set i { t with pc := .resend } } := by
        simp [cstep, ht, hpc]
      rw [hred]
      exact pres_release h ht hpc
    · rcases hlock : g.lock with _ | l
      · have hred : cstep g i =
            { g with threads := g.threads.set i { t with pc := .resend } } := by
          simp [cstep, ht, hpc, hlock]
        rw [hred]
        exact pres_wake h ht hpc hlock
      · simpa [cstep, ht, hpc, hlock] using h
    · have hred : cstep g i =
          { g with threads :=
              g.threads.set i { t with pc := .done, usedCred := some g.cred } } := by
        simp [cstep, ht, hpc]
      rw [hred]
      exact pres_resend h ht hpc
    · simpa [cstep, ht, hpc] using h

/-- Running any schedule preserves the invariant. -/
theorem crun_inv {g : CState} (sched : List Nat) (h : CInv g) :
    CInv (crun g sched) := by
  induction sched generalizing g with
  | nil => exact h
  | cons a s ih => exact ih (cstep_pres h a)

/-- The initial state satisfies the invariant. -/
theorem cinit_inv (n : Nat) : CInv (cinit n) := by
  have hrep : ∀ (i : Nat) (t : CThread),
      (cinit n).threads[i]? = some t → t = ⟨.got401, none⟩ := by
    intro i t hi
    unfold cinit at hi
    dsimp at hi
    rw [List.getElem?_replicate] at hi
    by_cases hin : i < n
    · rw [if_pos hin] at hi; exact (Option.some.inj hi).symm
    · rw [if_neg hin] at hi; exact Option.noConfusion hi
  refine
    { lock_lt := ?_, lock_crit := ?_, crit_lock := ?_, acq_held := ?_,
      acq_free := fun _ => rfl, next_eq := rfl, cred_le := Nat.le_refl 0,
      cred_pos := ?_, wait_auth := ?_, rel_auth := ?_, resend_auth := ?_,
      used_bounds := ?_, done_used := ?_ }
  · intro j hj; exact Option.noConfusion hj
  · intro j u hj; exact absurd hj (by intro hc; exact Option.noConfusion hc)
  · intro j u hu hcrit
    cases hrep j u hu
    rcases hcrit with hc | hc <;> exact CPc.noConfusion hc
  · intro j u hj; exact absurd hj (by intro hc; exact Option.noConfusion hc)
  · intro hc; simp [cinit] at hc
  · intro j u hu hw
    cases hrep j u hu
    exact CPc.noConfusion hw
  · intro j u hu hr
    cases hrep j u hu
    exact CPc.noConfusion hr
  · intro j u hu hr
    cases hrep j u hu
    rcases hr with hc | hc <;> exact CPc.noConfusion hc
  · intro j u k hu hk
    cases hrep j u hu
    exact Option.noConfusion hk
  · intro j u hu hd
    cases hrep j u hu
    exact CPc.noConfusion hd

end SingleFlight

namespace SettingsPatch

/-- Preservation: a thread acquiring the free settings mutex, entering its
critical section at a program point that is neither the patcher's
post-read nor post-write point. -/
theorem spres_acquire {f : Nat → Nat} {g : SState} (h : SInv f g) {i : Nat}
    {th th' : SThread} (ht : g.threads[i]? = some th)
    (hlock : g.lock = none) (hcrit : inCrit th' = true)
    (hnr : ∀ rv, th' ≠ .patcher .pread rv)
    (hnw : ∀ rv, th' ≠ .patcher .pwrote rv) :
    SInv f { g with lock := some i, threads := g.threads.set i th' } := by
  have hlt : i < g.threads.length := (List.getElem?_eq_some.mp ht).1
  refine { lock_lt := ?_, lock_crit := ?_, crit_lock := ?_, read_eq := ?_,
           wrote_eq := ?_ }
  · intro j hj
    cases Option.some.inj hj
    simpa [List.length_set] using hlt
  · intro j u hj hu
    cases Option.some.inj hj
    rw [lookup_set_self _ hlt] at hu
    cases Option.some.inj hu
    exact hcrit
  · intro j u hu hc
    rcases lookup_set_cases hu with ⟨rfl, rfl⟩ | ⟨hne, hu'⟩
    · rfl
    · have := h.crit_lock j u hu' hc
      rw [hlock] at this
      exact Option.noConfusion this
  · intro j rv hu
    rcases lookup_set_cases hu with ⟨rfl, heq⟩ | ⟨hne, hu'⟩
    · exact absurd heq.symm (hnr rv)
    · exact h.read_eq j rv hu'
  · intro j rv hu
    rcases lookup_set_cases hu with ⟨rfl, heq⟩ | ⟨hne, hu'⟩
    · exact absurd heq.symm (hnw rv)
    · exact h.wrote_eq j rv hu'

/-- Preservation: the patcher reads the stored settings under the lock. -/
theorem spres_read {f : Nat → Nat} {g : SState} (h : SInv f g) {i : Nat}
    {rv : Option Nat} (ht : g.threads[i]? = some (.patcher .plocked rv)) :
    SInv f { g with threads :=
        g.threads.set i (.patcher .pread (some g.store)) } := by
  have hlt : i < g.threads.length := (List.getElem?_eq_some.mp ht).1
  have hlock : g.lock = some i := h.crit_lock i _ ht rfl
  refine { lock_lt := ?_, lock_crit := ?_, crit_lock := ?_, read_eq := ?_,
           wrote_eq := ?_ }
  · intro j hj
    simpa [List.length_set] using h.lock_lt j hj
  · intro j u hj hu
    have hji : j = i := by rw [hlock] at hj; exact (Option.some.inj hj).symm
    subst hji
    rw [lookup_set_self _ hlt] at hu
    cases Option.some.inj hu
    rfl
  · intro j u hu hc
    rcases lookup_set_cases hu with ⟨rfl, rfl⟩ | ⟨hne, hu'⟩
    · exact hlock
    · exact h.crit_lock j u hu' hc
  · intro j rv' hu
    rcases lookup_set_cases hu with ⟨rfl, heq⟩ | ⟨hne, hu'⟩
    · cases heq
      exact ⟨g.store, rfl, rfl⟩
    · exact h.read_eq j rv' hu'
  · intro j rv' hu
    rcases lookup_set_cases hu with ⟨rfl, heq⟩ | ⟨hne, hu'⟩
    · exact PPc.noConfusion (SThread.patcher.inj heq).1
    · exact h.wrote_eq j rv' hu'

/-- Preservation: the patcher writes `f` of the value it read, still under
the lock. -/
theorem spres_write {f : Nat → Nat} {g : SState} (h : SInv f g) {i v : Nat}
    (ht : g.threads[i]? = some (.patcher .pread (some v))) :
    SInv f { g with store := f v, threads :=
        g.threads.set i (.patcher .pwrote (some v)) } := by
  have hlt : i < g.threads.length := (List.getElem?_eq_some.mp ht).1
  have hlock : g.lock = some i := h.crit_lock i _ ht rfl
  refine { lock_lt := ?_, lock_crit := ?_, crit_lock := ?_, read_eq := ?_,
           wrote_eq := ?_ }
  · intro j hj
    simpa [List.length_set] using h.lock_lt j hj
  · intro j u hj hu
    have hji : j = i := by rw [hlock] at hj; exact (Option.some.inj hj).symm
    subst hji
    rw [lookup_set_self _ hlt] at hu
    cases Option.some.inj hu
    rfl
  · intro j u hu hc
    rcases lookup_set_cases hu with ⟨rfl, rfl⟩ | ⟨hne, hu'⟩
    · exact hlock
    · exact h.crit_lock j u hu' hc
  · intro j rv' hu
    rcases lookup_set_cases hu with ⟨rfl, heq⟩ | ⟨hne, hu'⟩
    · exact PPc.noConfusion (SThread.patcher.inj heq).1
    · have := h.crit_lock j _ hu' rfl
      rw [hlock] at this
      exact absurd (Option.some.inj this).symm hne
  · intro j rv' hu
    rcases lookup_set_cases hu with ⟨rfl, heq⟩ | ⟨hne, hu'⟩
    · cases heq
      exact ⟨v, rfl, rfl⟩
    · have := h.crit_lock j _ hu' rfl
      rw [hlock] at this
      exact absurd (Option.some.inj this).symm hne

/-- Preservation: a thread releasing the settings mutex, leaving its
critical section for a non-critical program point that is neither the
patcher's post-read nor post-write point. -/
theorem spres_release {f : Nat → Nat} {g : SState} (h : SInv f g) {i : Nat}
    {th th' : SThread} (ht : g.threads[i]? = some th)
    (hcrit : inCrit th = true) (hnc : inCrit th' = false)
    (hnr : ∀ rv, th' ≠ .patcher .pread rv)
    (hnw : ∀ rv, th' ≠ .patcher .pwrote rv) :
    SInv f { g with lock := none, threads := g.threads.set i th' } := by
  have hlock : g.lock = some i := h.crit_lock i th ht hcrit
  refine { lock_lt := ?_, lock_crit := ?_, crit_lock := ?_, read_eq := ?_,
           wrote_eq := ?_ }
  · intro j hj; exact Option.noConfusion hj
  · intro j u hj; exact absurd hj (by intro hc; exact Option.noConfusion hc)
  · intro j u hu hc
    rcases lookup_set_cases hu with ⟨rfl, rfl⟩ | ⟨hne, hu'⟩
    · rw [hnc] at hc; exact Bool.noConfusion hc
    · have := h.crit_lock j u hu' hc
      rw [hlock] at this
      exact absurd (Option.some.inj this).symm hne
  · intro j rv hu
    rcases lookup_set_cases hu with ⟨rfl, heq⟩ | ⟨hne, hu'⟩
    · exact absurd heq.symm (hnr rv)
    · exact h.read_eq j rv hu'
  · intro j rv hu
    rcases lookup_set_cases hu with ⟨rfl, heq⟩ | ⟨hne, hu'⟩
    · exact absurd heq.symm (hnw rv)
    · exact h.wrote_eq j rv hu'

/-- Preservation: a writer stores its value under the lock. -/
theorem spres_wwrite {f : Nat → Nat} {g : SState} (h : SInv f g) {i v : Nat}
    (ht : g.threads[i]? = some (.writer .wlocked v)) :
    SInv f { g with store := v,
                    threads := g.threads.set i (.writer .wwrote v) } := by
  have hlt : i < g.threads.length := (List.getElem?_eq_some.mp ht).1
  have hlock : g.lock = some i := h.crit_lock i _ ht rfl
  refine { lock_lt := ?_, lock_crit := ?_, crit_lock := ?_, read_eq := ?_,
           wrote_eq := ?_ }
  · intro j hj
    simpa [List.length_set] using h.lock_lt j hj
  · intro j u hj hu
    have hji : j = i := by rw [hlock] at hj; exact (Option.some.inj hj).symm
    subst hji
    rw [lookup_set_self _ hlt] at hu
    cases Option.some.inj hu
    rfl
  · intro j u hu hc
    rcases lookup_set_cases hu with ⟨rfl, rfl⟩ | ⟨hne, hu'⟩
    · exact hlock
    · exact h.crit_lock j u hu' hc
  · intro j rv' hu
    rcases lookup_set_cases hu with ⟨rfl, heq⟩ | ⟨hne, hu'⟩
    · exact SThread.noConfusion heq
    · have := h.crit_lock j _ hu' rfl
      rw [hlock] at this
      exact absurd (Option.some.inj this).symm hne
  · intro j rv' hu
    rcases lookup_set_cases hu with ⟨rfl, heq⟩ | ⟨hne, hu'⟩
    · exact SThread.noConfusion heq
    · have := h.crit_lock j _ hu' rfl
      rw [hlock] at this
      exact absurd (Option.some.inj this).symm hne

/-- `sstep` preserves the invariant. -/
theorem sstep_pres {f : Nat → Nat} {g : SState} (h : SInv f g) (i : Nat) :
    SInv f (sstep f g i) := by
  rcases ht : g.threads[i]? with _ | th
  · simpa [sstep, ht] using h
  · rcases hth : th with ⟨pc, rv⟩ | ⟨pc, v⟩
    · subst hth
      rcases pc with _ | _ | _ | _ | _
      · rcases hlock : g.lock with _ | l
        · have hred : sstep f g i =
              { g with lock := some i,
                       threads := g.threads.set i (.patcher .plocked rv) } := by
            simp [sstep, ht, hlock]
          rw [hred]
          exact spres_acquire h ht hlock rfl
            (fun rv' hc => PPc.noConfusion (SThread.patcher.inj hc).1)
            (fun rv' hc => PPc.noConfusion (SThread.patcher.inj hc).1)
        · simpa [sstep, ht, hlock] using h
      · have hred : sstep f g i =
            { g with threads :=
                g.threads.set i (.patcher .pread (some g.store)) } := by
          simp [sstep, ht]
        rw [hred]
        exact spres_read h ht
      · rcases hrv : rv with _ | v
        · simpa [sstep, ht, hrv] using h
        · subst hrv
          have hred : sstep f g i =
              { g with store := f v,
                       threads := g.threads.set i (.patcher .pwrote (some v)) } := by
            simp [sstep, ht]
          rw [hred]
          exact spres_write h ht
      · have hred : sstep f g i =
            { g with lock := none,
                     threads := g.threads.set i (.patcher .pdone rv) } := by
          simp [sstep, ht]
        rw [hred]
        exact spres_release h ht rfl rfl
          (fun rv' hc => PPc.noConfusion (SThread.patcher.inj hc).1)
          (fun rv' hc => PPc.noConfusion (SThread.patcher.inj hc).1)
      · simpa [sstep, ht] using h
    · subst hth
      rcases pc with _ | _ | _ | _
      · rcases hlock : g.lock with _ | l
        · have hred : sstep f g i =
              { g with lock := some i,
                       threads := g.threads.set i (.writer .wlocked v) } := by
            simp [sstep, ht, hlock]
          rw [hred]
          exact spres_acquire h ht hlock rfl
            (fun rv' hc => SThread.noConfusion hc)
            (fun rv' hc => SThread.noConfusion hc)
        · simpa [sstep, ht, hlock] using h
      · have hred : sstep f g i =
            { g with store := v,
                     threads := g.threads.set i (.writer .wwrote v) } := by
          simp [sstep, ht]
        rw [hred]
        exact spres_wwrite h ht
      · have hred : sstep f g i =
            { g with lock := none,
                     threads := g.threads.set i (.writer .wdone v) } := by
          simp [sstep, ht]
        rw [hred]
        exact spres_release h ht rfl rfl
          (fun rv' hc => SThread.noConfusion hc)
          (fun rv' hc => SThread.noConfusion hc)
      · simpa [sstep, ht] using h

/-- Running any schedule preserves the invariant. -/
theorem srun_inv {f : Nat → Nat} {g : SState} (sched : List Nat)
    (h : SInv f g) : SInv f (srun f g sched) := by
  induction sched generalizing g with
  | nil => exact h
  | cons a s ih => exact ih (sstep_pres h a)

/-- Every thread of the initial state is a patcher at `pstart` or a writer
at `wstart`. -/
theorem sinit_lookup {s0 : Nat} {vals : List Nat} {j : Nat} {th : SThread}
    (h : (sinit s0 vals).threads[j]? = some th) :
    th = .patcher .pstart none ∨ ∃ v, th = .writer .wstart v := by
  unfold sinit at h
  dsimp at h
  cases j with
  | zero =>
    rw [List.getElem?_cons_zero] at h
    exact Or.inl (Option.some.inj h).symm
  | succ k =>
    rw [List.getElem?_cons_succ, List.getElem?_map] at h
    rcases hv : vals[k]? with _ | v
    · rw [hv] at h; exact Option.noConfusion h
    · rw [hv] at h
      exact Or.inr ⟨v, (Option.some.inj h).symm⟩

/-- The initial state satisfies the invariant. -/
theorem sinit_inv (f : Nat → Nat) (s0 : Nat) (vals : List Nat) :
    SInv f (sinit s0 vals) := by
  refine { lock_lt := ?_, lock_crit := ?_, crit_lock := ?_, read_eq := ?_,
           wrote_eq := ?_ }
  · intro j hj; exact Option.noConfusion hj
  · intro j u hj; exact absurd hj (by intro hc; exact Option.noConfusion hc)
  · intro j u hu hc
    rcases sinit_lookup hu with rfl | ⟨v, rfl⟩ <;> exact Bool.noConfusion hc
  · intro j rv hu
    rcases sinit_lookup hu with heq | ⟨v, heq⟩
    · exact PPc.noConfusion (SThread.patcher.inj heq).1
    · exact SThread.noConfusion heq
  · intro j rv hu
    rcases sinit_lookup hu with heq | ⟨v, heq⟩
    · exact PPc.noConfusion (SThread.patcher.inj heq).1
    · exact SThread.noConfusion heq

end SettingsPatch

namespace SingleFlight

/-- C1 counterexample: the single-flight claim fails as stated.  Two
concurrent callers both receive a 401 with a refresh capability
configured (the initial state of the model), yet in the exhibited
interleaving — the second caller's `try_lock` happens only after the
first caller released the credential lock — both callers complete and the
refresh capability is invoked twice, not exactly once. -/
theorem refresh_invoked_twice_trace :
    (∀ t ∈ (crun (cinit 2) [0, 0, 0, 1, 1, 1, 0, 1]).threads,
        t.pc = CPc.done) ∧
    (crun (cinit 2) [0, 0, 0, 1, 1, 1, 0, 1]).authCount ≠ 1 ∧
    (crun (cinit 2) [0, 0, 0, 1, 1, 1, 0, 1]).authCount = 2 := by
  decide

/-- C1 (amended): in every complete execution of N concurrent callers
that all received a 401 while a refresh capability is configured, the
capability is invoked exactly once per caller whose non-blocking
`try_lock` finds the credential lock free (so exactly once when the other
callers' lock attempts overlap the in-flight refresh, but possibly more
often otherwise); every caller — in particular every caller that failed
to acquire the lock, blocked until release and re-read
`RequestSettings` — resends exactly once, with a refreshed (non-stale)
credential; and when only one caller finds the lock free, the capability
runs exactly once and every caller resends with that single refreshed
credential. -/
theorem single_flight_amended (n : Nat) (sched : List Nat)
    (hdone : ∀ t ∈ (crun (cinit n) sched).threads, t.pc = CPc.done) :
    (crun (cinit n) sched).authCount =
        (crun (cinit n) sched).acquisitions ∧
    (∀ t ∈ (crun (cinit n) sched).threads,
        ∃ k, t.usedCred = some k ∧ 1 ≤ k) ∧
    ((crun (cinit n) sched).acquisitions = 1 →
      (crun (cinit n) sched).authCount = 1 ∧
      ∀ t ∈ (crun (cinit n) sched).threads, t.usedCred = some 1) := by
  have hinv := crun_inv sched (cinit_inv n)
  have hlock : (crun (cinit n) sched).lock = none := by
    rcases hl : (crun (cinit n) sched).lock with _ | i
    · rfl
    · have hlt := hinv.lock_lt i hl
      have ht : (crun (cinit n) sched).threads[i]? =
          some (crun (cinit n) sched).threads[i] :=
        List.getElem?_eq_getElem hlt
      have hcrit := hinv.lock_crit i _ hl ht
      have hd := hdone _ (List.getElem_mem hlt)
      rcases hcrit with hc | hc <;> rw [hd] at hc <;> exact CPc.noConfusion hc
  refine ⟨(hinv.acq_free hlock).symm, ?_, ?_⟩
  · intro t htmem
    obtain ⟨i, hi⟩ := List.mem_iff_getElem?.mp htmem
    have hd := hdone t htmem
    rcases hc : t.usedCred with _ | k
    · exact absurd hc (hinv.done_used i t hi hd)
    · exact ⟨k, rfl, (hinv.used_bounds i t k hi hc).1⟩
  · intro hacq
    have hauth : (crun (cinit n) sched).authCount = 1 := by
      have := hinv.acq_free hlock
      omega
    refine ⟨hauth, ?_⟩
    intro t htmem
    obtain ⟨i, hi⟩ := List.mem_iff_getElem?.mp htmem
    have hd := hdone t htmem
    rcases hc : t.usedCred with _ | k
    · exact absurd hc (hinv.done_used i t hi hd)
    · have hb := hinv.used_bounds i t k hi hc
      have hk1 : k = 1 := by omega
      rw [hk1]

/-- Witness for the amended single-flight theorem: a concrete 2-caller
schedule in which the second caller attempts the lock while the first
holds it, with exactly one capability invocation and both callers
resending with the single refreshed credential. -/
theorem single_flight_amended_witness :
    (crun (cinit 2) [0, 0, 1, 0, 0, 1, 1]).authCount = 1 ∧
    (∀ t ∈ (crun (cinit 2) [0, 0, 1, 0, 0, 1, 1]).threads,
        t.usedCred = some 1) := by
  have h := single_flight_amended 2 [0, 0, 1, 0, 0, 1, 1] (by decide)
  exact h.2.2 (by decide)

end SingleFlight

namespace SettingsPatch

/-- C7: `patch_request_settings(f)` performs its read-modify-write of
`RequestSettings` entirely under the settings lock.  In every reachable
state of the interleaving model: a patcher that has read value `v` still
holds the lock and the store still equals `v` (no other writer
interleaved between its read and its write); a patcher that has written
still holds the lock and the store equals `f v` for the value `v` it read
under the same lock hold; and at most one thread is ever inside the
settings critical section. -/
theorem patch_request_settings_atomic (f : Nat → Nat) (s0 : Nat)
    (vals : List Nat) (sched : List Nat) :
    (∀ (i : Nat) (rv : Option Nat),
      (srun f (sinit s0 vals) sched).threads[i]? =
          some (.patcher .pread rv) →
      (srun f (sinit s0 vals) sched).lock = some i ∧
      ∃ v, rv = some v ∧ (srun f (sinit s0 vals) sched).store = v) ∧
    (∀ (i : Nat) (rv : Option Nat),
      (srun f (sinit s0 vals) sched).threads[i]? =
          some (.patcher .pwrote rv) →
      (srun f (sinit s0 vals) sched).lock = some i ∧
      ∃ v, rv = some v ∧ (srun f (sinit s0 vals) sched).store = f v) ∧
    (∀ (i j : Nat) (thi thj : SThread),
      (srun f (sinit s0 vals) sched).threads[i]? = some thi →
      (srun f (sinit s0 vals) sched).threads[j]? = some thj →
      inCrit thi = true → inCrit thj = true → i = j) := by
  have hinv := srun_inv sched (sinit_inv f s0 vals)
  refine ⟨?_, ?_, ?_⟩
  · intro i rv hi
    exact ⟨hinv.crit_lock i _ hi rfl, hinv.read_eq i rv hi⟩
  · intro i rv hi
    exact ⟨hinv.crit_lock i _ hi rfl, hinv.wrote_eq i rv hi⟩
  · intro i j thi thj hi hj hci hcj
    have h1 := hinv.crit_lock i thi hi hci
    have h2 := hinv.crit_lock j thj hj hcj
    rw [h1] at h2
    exact Option.some.inj h2

/-- Witness for the settings-patch theorem: one patcher and one writer;
the patcher acquires, reads the stored value 10 and writes, and the
stored settings then equal the mutator applied to the value read. -/
theorem patch_request_settings_atomic_witness :
    (srun (fun v => v + 1) (sinit 10 [99]) [0, 0, 0]).store = 11 := by
  have h :=
    (patch_request_settings_atomic (fun v => v + 1) 10 [99] [0, 0, 0]).2.1
      0 (some 10) (by decide)
  obtain ⟨-, v, hv, hs⟩ := h
  cases Option.some.inj hv
  exact hs

end SettingsPatch

/-- Looking up a key appended to an association list that does not
contain it finds the appended value. -/
theorem lookup_append_single (n v : String) (hs : Headers)
    (h : List.lookup n hs = none) :
    List.lookup n (hs ++ [(n, v)]) = some v := by
  induction hs with
  | nil => simp [List.lookup]
  | cons a tl ih =>
    rcases a with ⟨k, w⟩
    by_cases hk : n = k
    · subst hk
      simp [List.lookup] at h
    · rw [List.cons_append]
      have hb : (n == k) = false := beq_eq_false_iff_ne.mpr hk
      simp only [List.lookup, hb] at h ⊢
      exact ih h

/-- Every network send performed by `run_request` uses the
correlation-tagged request. -/
theorem sends_all_tagged (c : ClientData) (req : HRequest)
    (freshId : String) (responses : Nat → Option HResponse) :
    ∀ p ∈ (run_request c req freshId responses).sends,
      p.1 = tagCorrelation req freshId := by
  rcases hcl : req.clonable with _ | _
  · simp [run_request, hcl]
  · by_cases ho : c.errorOnOriginMismatch = true ∧ req.url.orig ≠ c.baseUrl.orig
    · simp [run_request, hcl, ho]
    · rcases h0 : responses 0 with _ | r
      · simp [run_request, hcl, ho, h0]
      · by_cases hs : r.status = 401
        · rcases hcb : c.authCallback with _ | cb
          · simp [run_request, hcl, ho, h0, hs, hcb]
          · rcases cb with v | e
            · rcases h1 : responses 1 with _ | r2
              · simp [run_request, hcl, ho, h0, hs, hcb, h1]
              · simp [run_request, hcl, ho, h0, hs, hcb, h1]
            · simp [run_request, hcl, ho, h0, hs, hcb]
        · simp [run_request, hcl, ho, h0, hs]

/-- C2: when the first attempt returns 401, a refresh capability is
configured and its lock is acquired (the uncontended execution),
`run_request` invokes the capability exactly once; on success it patches
the stored `RequestSettings` with the returned Authorization header and
resends the original request exactly once with the refreshed settings,
returning the second response (subject only to the version guard) with no
further auth-triggered retry; on failure it aborts with a wrapped
`AuthCallback` error and does not resend. -/
theorem auth_retry_exactly_once (c : ClientData) (req : HRequest)
    (freshId : String) (responses : Nat → Option HResponse)
    (r : HResponse) (cb : AuthResult)
    (hclone : req.clonable = true)
    (horigin : ¬(c.errorOnOriginMismatch = true ∧ req.url.orig ≠ c.baseUrl.orig))
    (hresp : responses 0 = some r) (hstatus : r.status = 401)
    (hcb : c.authCallback = some cb) :
    (∀ v, cb = .ok v →
      (run_request c req freshId responses).authInvocations = 1 ∧
      (run_request c req freshId responses).settings =
        c.requestSettings.header "authorization" v ∧
      (run_request c req freshId responses).sends =
        [(tagCorrelation req freshId, c.requestSettings),
         (tagCorrelation req freshId,
          c.requestSettings.header "authorization" v)] ∧
      (∀ r2, responses 1 = some r2 →
        (run_request c req freshId responses).result = versionCheck c r2) ∧
      (responses 1 = none →
        (run_request c req freshId responses).result = .err .Transport)) ∧
    (∀ e, cb = .err e →
      (run_request c req freshId responses).result =
        .err (.AuthCallback e) ∧
      (run_request c req freshId responses).sends.length = 1 ∧
      (run_request c req freshId responses).authInvocations = 1) := by
  constructor
  · rintro v rfl
    refine ⟨?_, ?_, ?_, ?_, ?_⟩
    · rcases h1 : responses 1 with _ | r2 <;>
        simp [run_request, hclone, horigin, hresp, hstatus, hcb, h1]
    · rcases h1 : responses 1 with _ | r2 <;>
        simp [run_request, hclone, horigin, hresp, hstatus, hcb, h1]
    · rcases h1 : responses 1 with _ | r2 <;>
        simp [run_request, hclone, horigin, hresp, hstatus, hcb, h1]
    · intro r2 h1
      simp [run_request, hclone, horigin, hresp, hstatus, hcb, h1]
    · intro h1
      simp [run_request, hclone, horigin, hresp, hstatus, hcb, h1]
  · rintro e rfl
    refine ⟨?_, ?_, ?_⟩ <;>
      simp [run_request, hclone, horigin, hresp, hstatus, hcb]

/-- Witness for the auth-retry theorem: a concrete client whose first
attempt is unauthorized and whose callback returns a new token; the
callback runs once and the request is resent exactly once with the
patched settings. -/
theorem auth_retry_exactly_once_witness :
    (run_request
      ⟨⟨⟨"https", "fhir.example.org", 443⟩, "/fhir"⟩, ⟨[]⟩,
        some (.ok "Bearer token2"), false, false, "5.0"⟩
      ⟨⟨⟨"https", "fhir.example.org", 443⟩, "/fhir/Patient"⟩, [], true⟩
      "uuid-1" (fun n => if n = 0 then some ⟨401, []⟩ else some ⟨200, []⟩)
      ).authInvocations = 1 ∧
    (run_request
      ⟨⟨⟨"https", "fhir.example.org", 443⟩, "/fhir"⟩, ⟨[]⟩,
        some (.ok "Bearer token2"), false, false, "5.0"⟩
      ⟨⟨⟨"https", "fhir.example.org", 443⟩, "/fhir/Patient"⟩, [], true⟩
      "uuid-1" (fun n => if n = 0 then some ⟨401, []⟩ else some ⟨200, []⟩)
      ).settings = ⟨[("authorization", "Bearer token2")]⟩ := by
  have h :=
    auth_retry_exactly_once
      ⟨⟨⟨"https", "fhir.example.org", 443⟩, "/fhir"⟩, ⟨[]⟩,
        some (.ok "Bearer token2"), false, false, "5.0"⟩
      ⟨⟨⟨"https", "fhir.example.org", 443⟩, "/fhir/Patient"⟩, [], true⟩
      "uuid-1" (fun n => if n = 0 then some ⟨401, []⟩ else some ⟨200, []⟩)
      ⟨401, []⟩ (.ok "Bearer token2") rfl (by decide) rfl rfl rfl
  obtain ⟨h1, h2, -, -, -⟩ := h.1 "Bearer token2" rfl
  exact ⟨h1, h2⟩

/-- C3: with the origin guard enabled, a request whose origin differs
from the base URL's origin fails with `DifferentOrigin` carrying the
request URL, performing no network send; with the guard disabled, the
same request proceeds to the network. -/
theorem origin_guard_enforced (c : ClientData) (req : HRequest)
    (freshId : String) (responses : Nat → Option HResponse)
    (hclone : req.clonable = true)
    (hmismatch : req.url.orig ≠ c.baseUrl.orig) :
    (c.errorOnOriginMismatch = true →
      run_request c req freshId responses =
        ⟨.err (.DifferentOrigin req.url.render), c.requestSettings, [], 0⟩) ∧
    (c.errorOnOriginMismatch = false →
      (run_request c req freshId responses).sends ≠ []) := by
  constructor
  · intro hon
    simp [run_request, hclone, hon, hmismatch]
  · intro hoff
    rcases h0 : responses 0 with _ | r
    · simp [run_request, hclone, hoff, h0]
    · by_cases hs : r.status = 401
      · rcases hcb : c.authCallback with _ | cb
        · simp [run_request, hclone, hoff, h0, hs, hcb]
        · rcases cb with v | e
          · rcases h1 : responses 1 with _ | r2 <;>
              simp [run_request, hclone, hoff, h0, hs, hcb, h1]
          · simp [run_request, hclone, hoff, h0, hs, hcb]
      · simp [run_request, hclone, hoff, h0, hs]

/-- Witness for the origin guard: a cross-origin request is rejected
without any send when the guard is enabled, and reaches the network when
it is disabled. -/
theorem origin_guard_enforced_witness :
    run_request
      ⟨⟨⟨"https", "good.example.org", 443⟩, "/fhir"⟩, ⟨[]⟩, none,
        false, true, "5.0"⟩
      ⟨⟨⟨"https", "evil.example.org", 443⟩, "/x"⟩, [("X-Correlation-Id", "cid")], true⟩
      "u2" (fun _ => some ⟨200, []⟩) =
      ⟨.err (.DifferentOrigin
        (Url.render ⟨⟨"https", "evil.example.org", 443⟩, "/x"⟩)),
        ⟨[]⟩, [], 0⟩ ∧
    (run_request
      ⟨⟨⟨"https", "good.example.org", 443⟩, "/fhir"⟩, ⟨[]⟩, none,
        false, false, "5.0"⟩
      ⟨⟨⟨"https", "evil.example.org", 443⟩, "/x"⟩, [("X-Correlation-Id", "cid")], true⟩
      "u2" (fun _ => some ⟨200, []⟩)).sends ≠ [] := by
  constructor
  · exact
      (origin_guard_enforced
        ⟨⟨⟨"https", "good.example.org", 443⟩, "/fhir"⟩, ⟨[]⟩, none,
          false, true, "5.0"⟩
        ⟨⟨⟨"https", "evil.example.org", 443⟩, "/x"⟩, [("X-Correlation-Id", "cid")], true⟩
        "u2" (fun _ => some ⟨200, []⟩) rfl (by decide)).1 rfl
  · exact
      (origin_guard_enforced
        ⟨⟨⟨"https", "good.example.org", 443⟩, "/fhir"⟩, ⟨[]⟩, none,
          false, false, "5.0"⟩
        ⟨⟨⟨"https", "evil.example.org", 443⟩, "/x"⟩, [("X-Correlation-Id", "cid")], true⟩
        "u2" (fun _ => some ⟨200, []⟩) rfl (by decide)).2 rfl

/-- C4: with the version guard enabled, a response reaching the guard
(here: a non-401 first response) whose version-indicating header carries a
major component different from the client's major protocol version makes
`run_request` fail with `DifferentFhirVersion` carrying the observed
value; when the header is absent no error is raised and the response is
returned. -/
theorem version_guard_enforced (c : ClientData) (req : HRequest)
    (freshId : String) (responses : Nat → Option HResponse) (r : HResponse)
    (hclone : req.clonable = true)
    (horigin : ¬(c.errorOnOriginMismatch = true ∧ req.url.orig ≠ c.baseUrl.orig))
    (hresp : responses 0 = some r) (hstatus : r.status ≠ 401)
    (hguard : c.errorOnVersionMismatch = true) :
    (∀ v, parse_major_fhir_version r.headers = some v →
      v ≠ majorComponent c.version →
      (run_request c req freshId responses).result =
        .err (.DifferentFhirVersion v)) ∧
    (parse_major_fhir_version r.headers = none →
      (run_request c req freshId responses).result = .ok r) := by
  constructor
  · intro v hv hne
    simp [run_request, versionCheck, hclone, horigin, hresp, hstatus,
          hguard, hv, hne]
  · intro hv
    simp [run_request, versionCheck, hclone, horigin, hresp, hstatus,
          hguard, hv]

/-- Witness for the version guard: a server announcing major version 4
against a client configured for 5.0 is rejected with the observed value;
the same exchange without the version header succeeds. -/
theorem version_guard_enforced_witness :
    (run_request
      ⟨⟨⟨"https", "fhir.example.org", 443⟩, "/fhir"⟩, ⟨[]⟩, none,
        true, false, "5.0"⟩
      ⟨⟨⟨"https", "fhir.example.org", 443⟩, "/fhir/Patient"⟩, [], true⟩
      "u3" (fun _ => some ⟨200, [("fhirVersion", "4.3")]⟩)).result =
      .err (.DifferentFhirVersion "4") ∧
    (run_request
      ⟨⟨⟨"https", "fhir.example.org", 443⟩, "/fhir"⟩, ⟨[]⟩, none,
        true, false, "5.0"⟩
      ⟨⟨⟨"https", "fhir.example.org", 443⟩, "/fhir/Patient"⟩, [], true⟩
      "u3" (fun _ => some ⟨200, []⟩)).result = .ok ⟨200, []⟩ := by
  constructor
  · exact
      (version_guard_enforced
        ⟨⟨⟨"https", "fhir.example.org", 443⟩, "/fhir"⟩, ⟨[]⟩, none,
          true, false, "5.0"⟩
        ⟨⟨⟨"https", "fhir.example.org", 443⟩, "/fhir/Patient"⟩, [], true⟩
        "u3" (fun _ => some ⟨200, [("fhirVersion", "4.3")]⟩)
        ⟨200, [("fhirVersion", "4.3")]⟩ rfl (by decide) rfl (by decide)
        rfl).1 "4" (by decide) (by decide)
  · exact
      (version_guard_enforced
        ⟨⟨⟨"https", "fhir.example.org", 443⟩, "/fhir"⟩, ⟨[]⟩, none,
          true, false, "5.0"⟩
        ⟨⟨⟨"https", "fhir.example.org", 443⟩, "/fhir/Patient"⟩, [], true⟩
        "u3" (fun _ => some ⟨200, []⟩) ⟨200, []⟩ rfl (by decide) rfl
        (by decide) rfl).2 rfl

/-- C5: a first attempt answered with 401 while no refresh capability is
configured is returned to the caller as a normal `ok` result, with no
retry and no capability invocation. -/
theorem unauthorized_no_callback_returned (c : ClientData) (req : HRequest)
    (freshId : String) (responses : Nat → Option HResponse) (r : HResponse)
    (hclone : req.clonable = true)
    (horigin : ¬(c.errorOnOriginMismatch = true ∧ req.url.orig ≠ c.baseUrl.orig))
    (hresp : responses 0 = some r) (hstatus : r.status = 401)
    (hcb : c.authCallback = none) :
    (run_request c req freshId responses).result = .ok r ∧
    (run_request c req freshId responses).sends.length = 1 ∧
    (run_request c req freshId responses).authInvocations = 0 := by
  refine ⟨?_, ?_, ?_⟩ <;>
    simp [run_request, hclone, horigin, hresp, hstatus, hcb]

/-- Witness for the unauthorized-no-callback theorem on a concrete
client without a configured callback. -/
theorem unauthorized_no_callback_returned_witness :
    (run_request
      ⟨⟨⟨"https", "fhir.example.org", 443⟩, "/fhir"⟩, ⟨[]⟩, none,
        false, false, "5.0"⟩
      ⟨⟨⟨"https", "fhir.example.org", 443⟩, "/fhir/Patient"⟩, [], true⟩
      "u4" (fun _ => some ⟨401, []⟩)).result = .ok ⟨401, []⟩ ∧
    (run_request
      ⟨⟨⟨"https", "fhir.example.org", 443⟩, "/fhir"⟩, ⟨[]⟩, none,
        false, false, "5.0"⟩
      ⟨⟨⟨"https", "fhir.example.org", 443⟩, "/fhir/Patient"⟩, [], true⟩
      "u4" (fun _ => some ⟨401, []⟩)).authInvocations = 0 := by
  have h :=
    unauthorized_no_callback_returned
      ⟨⟨⟨"https", "fhir.example.org", 443⟩, "/fhir"⟩, ⟨[]⟩, none,
        false, false, "5.0"⟩
      ⟨⟨⟨"https", "fhir.example.org", 443⟩, "/fhir/Patient"⟩, [], true⟩
      "u4" (fun _ => some ⟨401, []⟩) ⟨401, []⟩ rfl (by decide) rfl rfl rfl
  exact ⟨h.1, h.2.2⟩

/-- C10 (implicit): the early return for a 401 response with no
configured callback skips the version guard, so a mismatched
major-version header on such a response never yields
`DifferentFhirVersion`, even with the version guard enabled. -/
theorem unauthorized_skips_version_guard (c : ClientData) (req : HRequest)
    (freshId : String) (responses : Nat → Option HResponse) (r : HResponse)
    (v : String)
    (hclone : req.clonable = true)
    (horigin : ¬(c.errorOnOriginMismatch = true ∧ req.url.orig ≠ c.baseUrl.orig))
    (hresp : responses 0 = some r) (hstatus : r.status = 401)
    (hcb : c.authCallback = none)
    (hguard : c.errorOnVersionMismatch = true)
    (hver : parse_major_fhir_version r.headers = some v)
    (hne : v ≠ majorComponent c.version) :
    (run_request c req freshId responses).result = .ok r ∧
    (run_request c req freshId responses).result ≠
      .err (.DifferentFhirVersion v) := by
  have hok : (run_request c req freshId responses).result = .ok r := by
    simp [run_request, hclone, horigin, hresp, hstatus, hcb]
  refine ⟨hok, ?_⟩
  rw [hok]
  intro hc
  exact RunOutcome.noConfusion hc

/-- Witness for the version-guard skip: a 401 response carrying major
version 4 against a 5.0 client with the guard enabled is still returned
as `ok`. -/
theorem unauthorized_skips_version_guard_witness :
    (run_request
      ⟨⟨⟨"https", "fhir.example.org", 443⟩, "/fhir"⟩, ⟨[]⟩, none,
        true, false, "5.0"⟩
      ⟨⟨⟨"https", "fhir.example.org", 443⟩, "/fhir/Patient"⟩, [], true⟩
      "u5" (fun _ => some ⟨401, [("fhirVersion", "4.3")]⟩)).result =
      .ok ⟨401, [("fhirVersion", "4.3")]⟩ := by
  exact
    (unauthorized_skips_version_guard
      ⟨⟨⟨"https", "fhir.example.org", 443⟩, "/fhir"⟩, ⟨[]⟩, none,
        true, false, "5.0"⟩
      ⟨⟨⟨"https", "fhir.example.org", 443⟩, "/fhir/Patient"⟩, [], true⟩
      "u5" (fun _ => some ⟨401, [("fhirVersion", "4.3")]⟩)
      ⟨401, [("fhirVersion", "4.3")]⟩ "4" rfl (by decide) rfl rfl rfl rfl
      (by decide) (by decide)).1

/-- C6: if the incoming request has no `X-Correlation-Id` header, every
send performed by `run_request` (first attempt and auth-retry resend
alike) carries the freshly generated identifier; if the header is present
the request is forwarded unchanged with its value preserved; and the
resent request always carries the same `X-Correlation-Id` as the first
attempt (all sends use one and the same request). -/
theorem correlation_tagging_preserved (c : ClientData) (req : HRequest)
    (freshId : String) (responses : Nat → Option HResponse) :
    (List.lookup "X-Correlation-Id" req.headers = none →
      ∀ p ∈ (run_request c req freshId responses).sends,
        List.lookup "X-Correlation-Id" p.1.headers = some freshId) ∧
    (∀ w, List.lookup "X-Correlation-Id" req.headers = some w →
      ∀ p ∈ (run_request c req freshId responses).sends,
        p.1 = req ∧
        List.lookup "X-Correlation-Id" p.1.headers = some w) ∧
    (∀ p ∈ (run_request c req freshId responses).sends,
      ∀ q ∈ (run_request c req freshId responses).sends, p.1 = q.1) := by
  refine ⟨?_, ?_, ?_⟩
  · intro hnone p hp
    rw [sends_all_tagged c req freshId responses p hp]
    unfold tagCorrelation
    rw [hnone]
    dsimp
    exact lookup_append_single _ _ _ hnone
  · intro w hw p hp
    have hpt := sends_all_tagged c req freshId responses p hp
    have htag : tagCorrelation req freshId = req := by
      unfold tagCorrelation
      rw [hw]
    rw [hpt, htag]
    exact ⟨rfl, hw⟩
  · intro p hp q hq
    rw [sends_all_tagged c req freshId responses p hp,
        sends_all_tagged c req freshId responses q hq]

/-- Witness for correlation tagging: a request without the header gets
the fresh identifier on every send (including the auth-retry resend of a
401 exchange), and a request with the header keeps its value. -/
theorem correlation_tagging_preserved_witness :
    (∀ p ∈ (run_request
      ⟨⟨⟨"https", "fhir.example.org", 443⟩, "/fhir"⟩, ⟨[]⟩,
        some (.ok "Bearer t2"), false, false, "5.0"⟩
      ⟨⟨⟨"https", "fhir.example.org", 443⟩, "/fhir/Patient"⟩, [], true⟩
      "fresh-id" (fun n => if n = 0 then some ⟨401, []⟩ else some ⟨200, []⟩)
      ).sends,
      List.lookup "X-Correlation-Id" p.1.headers = some "fresh-id") ∧
    (∀ p ∈ (run_request
      ⟨⟨⟨"https", "fhir.example.org", 443⟩, "/fhir"⟩, ⟨[]⟩,
        some (.ok "Bearer t2"), false, false, "5.0"⟩
      ⟨⟨⟨"https", "fhir.example.org", 443⟩, "/fhir/Patient"⟩,
        [("X-Correlation-Id", "caller-id")], true⟩
      "fresh-id" (fun n => if n = 0 then some ⟨401, []⟩ else some ⟨200, []⟩)
      ).sends,
      List.lookup "X-Correlation-Id" p.1.headers = some "caller-id") := by
  constructor
  · exact
      (correlation_tagging_preserved
        ⟨⟨⟨"https", "fhir.example.org", 443⟩, "/fhir"⟩, ⟨[]⟩,
          some (.ok "Bearer t2"), false, false, "5.0"⟩
        ⟨⟨⟨"https", "fhir.example.org", 443⟩, "/fhir/Patient"⟩, [], true⟩
        "fresh-id"
        (fun n => if n = 0 then some ⟨401, []⟩ else some ⟨200, []⟩)).1 rfl
  · intro p hp
    exact
      ((correlation_tagging_preserved
        ⟨⟨⟨"https", "fhir.example.org", 443⟩, "/fhir"⟩, ⟨[]⟩,
          some (.ok "Bearer t2"), false, false, "5.0"⟩
        ⟨⟨⟨"https", "fhir.example.org", 443⟩, "/fhir/Patient"⟩,
          [("X-Correlation-Id", "caller-id")], true⟩
        "fresh-id"
        (fun n => if n = 0 then some ⟨401, []⟩ else some ⟨200, []⟩)).2.1
        "caller-id" rfl p hp).2

/-- C8: a request that cannot be duplicated for the potential retry fails
immediately with `RequestNotClone`: no network send, no callback
invocation, and this error takes precedence over the origin guard. -/
theorem request_not_clone_immediate (c : ClientData) (req : HRequest)
    (freshId : String) (responses : Nat → Option HResponse)
    (h : req.clonable = false) :
    run_request c req freshId responses =
      ⟨.err .RequestNotClone, c.requestSettings, [], 0⟩ := by
  simp [run_request, h]

/-- Witness for the non-duplicable request: even with the origin guard
enabled and a mismatched origin, the error is `RequestNotClone` and
nothing is sent. -/
theorem request_not_clone_immediate_witness :
    run_request
      ⟨⟨⟨"https", "good.example.org", 443⟩, "/fhir"⟩, ⟨[]⟩, none,
        true, true, "5.0"⟩
      ⟨⟨⟨"https", "evil.example.org", 443⟩, "/x"⟩, [], false⟩
      "u6" (fun _ => some ⟨200, []⟩) =
      ⟨.err .RequestNotClone, ⟨[]⟩, [], 0⟩ := by
  exact
    request_not_clone_immediate
      ⟨⟨⟨"https", "good.example.org", 443⟩, "/fhir"⟩, ⟨[]⟩, none,
        true, true, "5.0"⟩
      ⟨⟨⟨"https", "evil.example.org", 443⟩, "/x"⟩, [], false⟩
      "u6" (fun _ => some ⟨200, []⟩) rfl

/-- C9: `make_batch` builds a Bundle whose `type` is `batch` and
`make_transaction` one whose `type` is `transaction`, both carrying
exactly the given entry list in order (and the builder's unwrap always
succeeds). -/
theorem make_batch_transaction_correct (α : Type)
    (entries : List (Option α)) :
    make_batch α entries = some ⟨.batch, entries⟩ ∧
    make_transaction α entries = some ⟨.transaction, entries⟩ :=
  ⟨rfl, rfl⟩

end FhirSdk
